import Mathlib

/-!
Verification of the whois-mcp AS-SET expansion engine and its TTL/LRU cache.

The definitions below are a shallow embedding of `src/whois_mcp/cache.py`
(class `TTLCache`) and `src/whois_mcp/tools/expand_as_set.py`
(`_expand_as_set_recursive`, `_expand_as_set_request`).

Modelling conventions:
* Python `time.perf_counter()` timestamps are integers, passed explicitly
  (`now`) to every cache operation; only their ordered additive structure
  is used, exactly as in the source's `now - timestamp > ttl` comparison.
* The `OrderedDict` backing the cache is a list of `(key, timestamp, value)`
  entries, front = least recently used, back = most recently used;
  `move_to_end` is remove-then-append, `popitem(last=False)` drops the front.
* Python `set` objects become `Finset`; mutation of the shared `seen` set,
  the module-level cache, and the accumulating ASN sets becomes explicit
  state threading through `ExpState`.
* Python string operations (`upper`, `startswith`, `isdigit`, slicing,
  `int(...)`) are re-implemented structurally over the character list of
  the string; the tokens involved are ASCII, where these agree with Python.
* The upstream registry (`_get_json` plus the `objects` extraction) is a
  parameter `env : String → FetchOutcome`: `err` models the fetch raising,
  `notFound` models an empty `objects` list (the 404 path), `found ms`
  models a successful fetch whose object carries the member tokens `ms`.
* Each upstream fetch is logged in a ghost `trace` field so that
  "no fetch was performed" is observable; the trace has no effect on
  any other component of the result.
* Recursion depth: the Python code stops when `depth >= max_depth` and
  recurses at `depth + 1`; the embedding carries the remaining budget
  `fuel = max_depth - depth` and stops at `fuel = 0`.
-/

/-- Embeds `TTLCache` from `cache.py`: `_max_items`, `_ttl`, and the ordered
mapping `_data` (front = least recently used). -/
structure TTLCache (K V : Type) where
  max_items : Nat
  ttl : ℤ
  data : List (K × ℤ × V)
deriving DecidableEq

namespace TTLCache

variable {K V : Type} [DecidableEq K]

/-- A fresh cache, as built by `TTLCache.__init__`. -/
def empty (K V : Type) (max_items : Nat) (ttl : ℤ) : TTLCache K V :=
  ⟨max_items, ttl, []⟩

/-- The keys currently stored, in LRU order. -/
def keys (c : TTLCache K V) : List K :=
  c.data.map Prod.fst

/-- Embeds `TTLCache.get`: look the key up; on an expired entry
(`now - timestamp > ttl`) pop it and return absent; on a live hit move the
entry to the most-recently-used end and return the value. Returns the
value (if any) together with the updated cache. -/
def get (c : TTLCache K V) (now : ℤ) (key : K) : Option V × TTLCache K V :=
  match c.data.find? (fun e => e.1 = key) with
  | none => (none, c)
  | some (_, ts, v) =>
    if now - ts > c.ttl then
      (none, { c with data := c.data.filter (fun e => e.1 ≠ key) })
    else
      (some v, { c with data := c.data.filter (fun e => e.1 ≠ key) ++ [(key, ts, v)] })

/-- Embeds `TTLCache.set`: store `(now, value)` under `key`, move it to the
most-recently-used end, and if the size now exceeds `max_items` pop the
least-recently-used entry (the front). -/
def set (c : TTLCache K V) (now : ℤ) (key : K) (v : V) : TTLCache K V :=
  let d := c.data.filter (fun e => e.1 ≠ key) ++ [(key, now, v)]
  { c with data := if c.max_items < d.length then d.drop 1 else d }

/-- Embeds `TTLCache.clear`. -/
def clear (c : TTLCache K V) : TTLCache K V :=
  { c with data := [] }

/-- Embeds `TTLCache.__len__`. -/
def size (c : TTLCache K V) : Nat :=
  c.data.length

end TTLCache

/-- Python `str.upper` on one ASCII character. -/
def pyCharUpper (c : Char) : Char :=
  if 97 ≤ c.toNat ∧ c.toNat ≤ 122 then Char.ofNat (c.toNat - 32) else c

/-- Python `str.upper` on an ASCII string. -/
def pyUpper (s : String) : String :=
  ⟨s.data.map pyCharUpper⟩

/-- Character-list version of `str.startswith`. -/
def charsStartWith : List Char → List Char → Bool
  | [], _ => true
  | _ :: _, [] => false
  | p :: ps, c :: cs => p = c && charsStartWith ps cs

/-- Python `s.startswith(p)`. -/
def pyStartsWith (s p : String) : Bool :=
  charsStartWith p.data s.data

/-- Python `s[n:]`. -/
def pyDrop (s : String) (n : ℕ) : String :=
  ⟨s.data.drop n⟩

/-- Python `str.isdigit` on the ASCII strings occurring here: nonempty and
all characters are decimal digits. -/
def pyIsDigit (s : String) : Bool :=
  !s.data.isEmpty && s.data.all (fun c => 48 ≤ c.toNat && c.toNat ≤ 57)

/-- Python `int(...)` on a string of decimal digits. -/
def pyParseNat (s : String) : ℕ :=
  s.data.foldl (fun n c => 10 * n + (c.toNat - 48)) 0

/-- Outcome of one upstream fetch of an AS-SET's object (`_get_json` plus
the `objects` extraction in `_expand_as_set_recursive`): the fetch raises
(`err`), returns an empty object list — the 404 path of `_get_json`
(`notFound`) — or yields the object's `members` attribute values
(`found`). -/
inductive FetchOutcome where
  | err : FetchOutcome
  | notFound : FetchOutcome
  | found (members : List String) : FetchOutcome
deriving DecidableEq

/-- The mutable state threaded through one expansion: the per-call `seen`
set, the module-level `_as_set_cache`, and a ghost log of the set names
fetched upstream (one entry per `_get_json` call). -/
structure ExpState where
  seen : Finset String
  cache : TTLCache String (Finset ℕ)
  trace : List String
deriving DecidableEq

instance {ε α : Type} [DecidableEq ε] [DecidableEq α] : DecidableEq (Except ε α) := fun a b =>
  match a, b with
  | .ok x, .ok y => decidable_of_iff (x = y) (by simp)
  | .error x, .error y => decidable_of_iff (x = y) (by simp)
  | .ok _, .error _ => isFalse (fun hc => Except.noConfusion hc)
  | .error _, .ok _ => isFalse (fun hc => Except.noConfusion hc)

/-- One iteration of the member loop of `_expand_as_set_recursive`,
parameterized by the nested expansion call `f` (the recursive call one
level deeper). The pair carries the node's local `asns` set and the
threaded state. A token whose uppercase form starts with `AS` followed by
digits only is added as a leaf ASN; else a token whose uppercase form
starts with `AS-` is recursively expanded with the nested call's exception
caught and swallowed (`Continue with other members even if one fails`);
any other token is skipped. -/
def memberStep (f : String → ExpState → Except Unit (Finset ℕ) × ExpState)
    (p : Finset ℕ × ExpState) (m : String) : Finset ℕ × ExpState :=
  if pyStartsWith (pyUpper m) "AS" ∧ pyIsDigit (pyDrop m 2) then
    (insert (pyParseNat (pyDrop m 2)) p.1, p.2)
  else if pyStartsWith (pyUpper m) "AS-" then
    let r := f m p.2
    (match r.1 with
      | .ok s => p.1 ∪ s
      | .error _ => p.1, r.2)
  else p

/-- Embeds `_expand_as_set_recursive` from `expand_as_set.py` with the
remaining depth budget `fuel = max_depth - depth` (the code stops when
`depth >= max_depth`, i.e. `fuel = 0`, and recurses at `depth + 1`, i.e.
`fuel - 1`; the `for member in ...` loop is the fold). Returns the
contribution merged into the caller's `out_asns` (`Except.ok`) or the
propagated exception (`Except.error`, raised exactly when this node's own
fetch raises), together with the updated state. -/
def expandRec (env : String → FetchOutcome) (now : ℤ) (fuel : ℕ)
    (setname : String) (st : ExpState) : Except Unit (Finset ℕ) × ExpState :=
  match fuel with
  | 0 => (.ok ∅, st)
  | fuel' + 1 =>
    if setname ∈ st.seen then (.ok ∅, st)
    else
      let st1 : ExpState := { st with seen := insert setname st.seen }
      let got := st1.cache.get now ("as_set:" ++ setname)
      let st2 : ExpState := { st1 with cache := got.2 }
      -- Python truthiness: `if cached_result:` short-circuits only on a
      -- nonempty cached set; `None` and the empty set fall through.
      if (got.1.getD ∅).Nonempty then (.ok (got.1.getD ∅), st2)
      else
        match env setname with
        | .err => (.error (), { st2 with trace := st2.trace ++ [setname] })
        | .notFound => (.ok ∅, { st2 with trace := st2.trace ++ [setname] })
        | .found members =>
          let st3 : ExpState := { st2 with trace := st2.trace ++ [setname] }
          let res := members.foldl
            (memberStep (fun m st' => expandRec env now fuel' m st')) (∅, st3)
          let c := res.2.cache.set now ("as_set:" ++ setname) res.1
          (.ok res.1, { res.2 with cache := c })

/-- The member loop on a whole token list, at nested budget `fuel`. -/
def processMembers (env : String → FetchOutcome) (now : ℤ) (fuel : ℕ)
    (members : List String) (st : ExpState) (acc : Finset ℕ) :
    Finset ℕ × ExpState :=
  members.foldl (memberStep (fun m st' => expandRec env now fuel m st')) (acc, st)

/-- The tool's response envelope: `{"ok": true, "data": {...}}` with the
`status` field present or absent, or `{"ok": false, "error": ...}`. -/
inductive Response where
  | success (as_set : String) (asns : List ℕ) (count : ℕ) (status : Option String) : Response
  | failure (error : String) : Response
deriving DecidableEq

/-- Python `sorted(...)` over a set of ints: the ascending list of the
elements (well defined on the underlying multiset because sorted
permutations are unique). -/
def sortAsns (s : Finset ℕ) : List ℕ :=
  Quot.liftOn s.val (fun l => l.insertionSort (· ≤ ·)) (fun l₁ l₂ h =>
    List.eq_of_perm_of_sorted
      (((List.perm_insertionSort _ l₁).trans h).trans (List.perm_insertionSort _ l₂).symm)
      (List.sorted_insertionSort _ l₁) (List.sorted_insertionSort _ l₂))

/-- Embeds `_expand_as_set_request` from `expand_as_set.py`: serve a
non-`None` cached value (no `status` field on that path), otherwise run
the recursive expansion from fresh `seen`/`asns` state, mapping a raised
exception to the `ok:false` envelope and classifying the result as
`not-found` when `len(asns) == 0 and len(seen) <= 1`, else `expanded`. -/
def expandAsSetRequest (env : String → FetchOutcome) (now : ℤ)
    (cache : TTLCache String (Finset ℕ)) (setname : String) (max_depth : ℕ) :
    Response × ExpState :=
  let got := cache.get now ("as_set:" ++ setname)
  match got.1 with
  | some s => (.success setname (sortAsns s) s.card none, ⟨∅, got.2, []⟩)
  | none =>
    let r := expandRec env now max_depth setname ⟨∅, got.2, []⟩
    match r.1 with
    | .error _ => (.failure "expansion_error", r.2)
    | .ok asns =>
      if asns.card = 0 ∧ r.2.seen.card ≤ 1 then
        (.success setname [] 0 (some "not-found"), r.2)
      else
        (.success setname (sortAsns asns) asns.card (some "expanded"), r.2)

/-- A cache operation, for stating invariants over arbitrary operation
sequences (`get`/`set`/`clear` are the only operations that touch
`_data`). -/
inductive CacheOp (K V : Type) where
  | get (now : ℤ) (k : K) : CacheOp K V
  | set (now : ℤ) (k : K) (v : V) : CacheOp K V
  | clear : CacheOp K V

/-- Run one cache operation (dropping the value a `get` returns). -/
def applyOp {K V : Type} [DecidableEq K] (c : TTLCache K V) : CacheOp K V → TTLCache K V
  | .get now k => (c.get now k).2
  | .set now k v => c.set now k v
  | .clear => c.clear

/-- Run a sequence of cache operations. -/
def applyOps {K V : Type} [DecidableEq K] (c : TTLCache K V) (ops : List (CacheOp K V)) :
    TTLCache K V :=
  ops.foldl applyOp c

/-- Spec-side definition (for the refinement claim about `maxDepth = 1`):
the ASNs of exactly the leaf-ASN member tokens of one node, read off the
token list alone. -/
def specDirectLeaves (ms : List String) : Finset ℕ :=
  ms.foldl
    (fun acc m =>
      if pyStartsWith (pyUpper m) "AS" ∧ pyIsDigit (pyDrop m 2) then
        insert (pyParseNat (pyDrop m 2)) acc
      else acc) ∅

/-! ### Concrete scenario data (from the spec's testable properties) -/

/-- The module-level `_as_set_cache`, fresh: `max_items=1000, ttl=300`. -/
def ripeCache : TTLCache String (Finset ℕ) :=
  TTLCache.empty String (Finset ℕ) 1000 300

/-- Cyclic member graph: `AS-EXAMPLE -> [AS100, AS-NESTED]`,
`AS-NESTED -> [AS200, AS-EXAMPLE]` (cycle back to the root). -/
def cycleEnv : String → FetchOutcome := fun s =>
  if s = "AS-EXAMPLE" then .found ["AS100", "AS-NESTED"]
  else if s = "AS-NESTED" then .found ["AS200", "AS-EXAMPLE"]
  else .notFound

/-- Chain `AS-A -> AS-B -> AS-C -> leaf(ASN 1)`. -/
def chainEnv : String → FetchOutcome := fun s =>
  if s = "AS-A" then .found ["AS-B"]
  else if s = "AS-B" then .found ["AS-C"]
  else if s = "AS-C" then .found ["AS1"]
  else .notFound

/-- A parent with two nested references, `AS-X` whose fetch raises and
`AS-Y` which succeeds yielding ASN 7. -/
def splitEnv : String → FetchOutcome := fun s =>
  if s = "AS-P" then .found ["AS-X", "AS-Y"]
  else if s = "AS-X" then .err
  else if s = "AS-Y" then .found ["AS7"]
  else .notFound

/-- Total upstream outage: every fetch raises a transport error. -/
def outageEnv : String → FetchOutcome := fun _ => .err

/-- A root whose member list contains the token `FOO`, which is neither an
`AS<digits>` leaf nor an `AS-` reference; `FOO` itself would expand to
ASN 7 if it were ever fetched. -/
def strayEnv : String → FetchOutcome := fun s =>
  if s = "AS-A" then .found ["FOO"]
  else if s = "FOO" then .found ["AS7"]
  else .notFound

/-- A cache already holding `{5}` for `AS-X`, as left by a previous
expansion. -/
def servedCache : TTLCache String (Finset ℕ) :=
  ripeCache.set 0 "as_set:AS-X" {5}

/-- A cache holding the empty ASN set for `AS-Z` (a node whose full
expansion is empty). -/
def emptyCachedCache : TTLCache String (Finset ℕ) :=
  ripeCache.set 0 "as_set:AS-Z" (∅ : Finset ℕ)

/-! ### Helper lemmas about the cache's ordered entry list -/

lemma mem_filter_ne {K V : Type} [DecidableEq K] (l : List (K × ℤ × V)) (k : K) :
    ∀ e ∈ l.filter (fun e => e.1 ≠ k), ¬(e.1 = k) := by
  intro e he
  simpa using (List.mem_filter.1 he).2

lemma key_not_mem_filter_keys {K V : Type} [DecidableEq K] (l : List (K × ℤ × V)) (k : K) :
    k ∉ (l.filter (fun e => e.1 ≠ k)).map Prod.fst := by
  intro h
  obtain ⟨e, he, hek⟩ := List.mem_map.1 h
  exact mem_filter_ne l k e he hek

lemma find?_key_append {K V : Type} [DecidableEq K] (l : List (K × ℤ × V)) (k : K)
    (e : K × ℤ × V) (hl : ∀ x ∈ l, ¬(x.1 = k)) (he : e.1 = k) :
    (l ++ [e]).find? (fun x => x.1 = k) = some e := by
  rw [List.find?_append]
  have h1 : l.find? (fun x => x.1 = k) = none :=
    List.find?_eq_none.2 (by intro x hx; simpa using hl x hx)
  rw [h1, Option.none_or, List.find?_cons]
  simp [he]

/-- After `set t₀ k v` (on a cache with positive capacity) the entry list is
some list of entries keyed differently from `k`, followed by the fresh
`(k, t₀, v)` entry at the most-recently-used end. -/
lemma set_data_eq {K V : Type} [DecidableEq K] (c : TTLCache K V) (t₀ : ℤ) (k : K) (v : V)
    (hmax : 0 < c.max_items) :
    ∃ l, (c.set t₀ k v).data = l ++ [(k, t₀, v)] ∧ ∀ x ∈ l, ¬(x.1 = k) := by
  unfold TTLCache.set
  by_cases h : c.max_items < (c.data.filter (fun e => e.1 ≠ k) ++ [(k, t₀, v)]).length
  · have hne : c.data.filter (fun e => e.1 ≠ k) ≠ [] := by
      intro h0
      rw [h0] at h
      simp at h
      omega
    have h1 : 1 ≤ (c.data.filter (fun e => e.1 ≠ k)).length := by
      cases h0 : c.data.filter (fun e => e.1 ≠ k) with
      | nil => exact absurd h0 hne
      | cons a as => simp
    refine ⟨(c.data.filter (fun e => e.1 ≠ k)).tail, ?_, ?_⟩
    · simp only [h, if_true]
      rw [List.drop_append_of_le_length h1, List.drop_one]
    · intro x hx
      exact mem_filter_ne c.data k x (List.mem_of_mem_tail hx)
  · refine ⟨c.data.filter (fun e => e.1 ≠ k), ?_, mem_filter_ne c.data k⟩
    simp only [h, if_false]

/-- After `set t₀ k v` (positive capacity), looking `k` up finds exactly the
freshly written entry. -/
lemma set_find_eq {K V : Type} [DecidableEq K] (c : TTLCache K V) (t₀ : ℤ) (k : K) (v : V)
    (hmax : 0 < c.max_items) :
    (c.set t₀ k v).data.find? (fun x => x.1 = k) = some (k, t₀, v) := by
  obtain ⟨l, hd, hl⟩ := set_data_eq c t₀ k v hmax
  rw [hd]
  exact find?_key_append l k _ hl rfl

/-- C7: for every cache with `ttl = t`, a value stored by `set` at time `t₀`
and read by `get` at any time `s` with `s - t₀ > t` returns absent and
removes the entry on that access (the entry was present before the read —
lazy expiry, no proactive removal); read at any `s` with `s - t₀ ≤ t` it
returns the stored value. -/
theorem cache_ttl_expiry {K V : Type} [DecidableEq K] (c : TTLCache K V)
    (t₀ s : ℤ) (k : K) (v : V) (hmax : 0 < c.max_items) :
    k ∈ (c.set t₀ k v).keys
    ∧ (c.ttl < s - t₀ →
        (((c.set t₀ k v).get s k).1 = none ∧ k ∉ (((c.set t₀ k v).get s k).2).keys))
    ∧ (s - t₀ ≤ c.ttl → ((c.set t₀ k v).get s k).1 = some v) := by
  obtain ⟨l, hd, hl⟩ := set_data_eq c t₀ k v hmax
  have hfind := set_find_eq c t₀ k v hmax
  have httl : (c.set t₀ k v).ttl = c.ttl := rfl
  refine ⟨?_, ?_, ?_⟩
  · rw [TTLCache.keys, hd]
    simp
  · intro hexp
    have hcond : s - t₀ > (c.set t₀ k v).ttl := by rw [httl]; exact hexp
    constructor
    · simp only [TTLCache.get, hfind, hcond, if_true]
    · simp only [TTLCache.get, hfind, hcond, if_true, TTLCache.keys]
      exact key_not_mem_filter_keys _ k
  · intro hle
    have hcond : ¬(s - t₀ > (c.set t₀ k v).ttl) := by rw [httl]; exact not_lt.2 hle
    simp only [TTLCache.get, hfind, hcond, if_false]

/-- C8: on a cache holding `maxItems` entries, `set` of a fresh key evicts
exactly the least-recently-touched entry (the front) and keeps every other
entry in order; a `get` hit moves the touched key's entry to the
most-recently-used end, keeping all other entries; and `set` always leaves
the written key's fresh entry at the most-recently-used end, whether or
not the key pre-existed. -/
theorem cache_lru_touch {K V : Type} [DecidableEq K] (c : TTLCache K V)
    (now : ℤ) (k : K) (v : V) :
    (c.data.length = c.max_items → k ∉ c.keys → c.data ≠ [] →
      (c.set now k v).data = c.data.tail ++ [(k, now, v)])
    ∧ (∀ w, (c.get now k).1 = some w →
        ∃ ts, ((c.get now k).2).data = c.data.filter (fun e => e.1 ≠ k) ++ [(k, ts, w)])
    ∧ (0 < c.max_items → ((c.set now k v).data).getLast? = some (k, now, v)) := by
  refine ⟨?_, ?_, ?_⟩
  · intro hlen hk hne
    have hfilter : c.data.filter (fun e => e.1 ≠ k) = c.data := by
      refine List.filter_eq_self.2 ?_
      intro a ha
      simp only [decide_eq_true_eq]
      intro hak
      exact hk (by rw [TTLCache.keys]; exact List.mem_map.2 ⟨a, ha, hak⟩)
    have h1 : 1 ≤ c.data.length := by
      cases h0 : c.data with
      | nil => exact absurd h0 hne
      | cons a as => simp
    have hov : c.max_items < (c.data.filter (fun e => e.1 ≠ k) ++ [(k, now, v)]).length := by
      rw [hfilter]
      simp [hlen]
    have hov' : c.max_items < (c.data ++ [(k, now, v)]).length := by
      simp [hlen]
    simp only [TTLCache.set, hov, if_true, hfilter, hov']
    rw [List.drop_append_of_le_length h1, List.drop_one]
  · intro w hw
    rcases hfind : c.data.find? (fun e => e.1 = k) with _ | ⟨⟨k', ts, v'⟩⟩
    · simp only [TTLCache.get, hfind] at hw
      exact Option.noConfusion hw
    · by_cases hexp : now - ts > c.ttl
      · simp only [TTLCache.get, hfind, hexp, if_true] at hw
        exact Option.noConfusion hw
      · simp only [TTLCache.get, hfind, hexp, if_false] at hw ⊢
        have hvw : v' = w := by injection hw
        subst hvw
        exact ⟨ts, rfl⟩
  · intro hmax
    obtain ⟨l, hd, _⟩ := set_data_eq c now k v hmax
    rw [hd]
    exact List.getLast?_concat _

lemma get_size_le {K V : Type} [DecidableEq K] (c : TTLCache K V) (now : ℤ) (k : K) :
    ((c.get now k).2).size ≤ c.size := by
  unfold TTLCache.get TTLCache.size
  rcases hfind : c.data.find? (fun e => e.1 = k) with _ | ⟨⟨k', ts, v'⟩⟩
  · simp only [hfind]
    exact le_refl _
  · have hmem : (k', ts, v') ∈ c.data := List.mem_of_find?_eq_some hfind
    have hk' : k' = k := by simpa using List.find?_some hfind
    have hlt : (c.data.filter (fun e => e.1 ≠ k)).length < c.data.length := by
      refine List.length_filter_lt_length_iff_exists.2 ⟨(k', ts, v'), hmem, ?_⟩
      simp [hk']
    by_cases hexp : now - ts > c.ttl
    · simp only [hfind, hexp, if_true]
      exact le_of_lt hlt
    · simp only [hfind, hexp, if_false, List.length_append, List.length_cons,
        List.length_nil]
      omega

lemma set_size_le {K V : Type} [DecidableEq K] (c : TTLCache K V) (now : ℤ) (k : K) (v : V)
    (h : c.size ≤ c.max_items) : (c.set now k v).size ≤ c.max_items := by
  have hf : (c.data.filter (fun e => e.1 ≠ k)).length ≤ c.data.length :=
    List.length_filter_le _ _
  unfold TTLCache.size at h
  simp only [TTLCache.set, TTLCache.size]
  by_cases hov : c.max_items < (c.data.filter (fun e => e.1 ≠ k) ++ [(k, now, v)]).length
  · rw [if_pos hov]
    simp only [List.length_drop, List.length_append, List.length_cons, List.length_nil] at hov ⊢
    omega
  · rw [if_neg hov]
    simp only [List.length_append, List.length_cons, List.length_nil] at hov ⊢
    omega

lemma get_max_eq {K V : Type} [DecidableEq K] (c : TTLCache K V) (now : ℤ) (k : K) :
    ((c.get now k).2).max_items = c.max_items := by
  unfold TTLCache.get
  rcases hfind : c.data.find? (fun e => e.1 = k) with _ | ⟨⟨k', ts, v'⟩⟩
  · simp only [hfind]
  · by_cases hexp : now - ts > c.ttl <;> simp only [hfind, hexp, if_true, if_false]

lemma applyOp_max_eq {K V : Type} [DecidableEq K] (c : TTLCache K V) (op : CacheOp K V) :
    (applyOp c op).max_items = c.max_items := by
  cases op with
  | get now k => exact get_max_eq c now k
  | set now k v => rfl
  | clear => rfl

lemma applyOp_size_le {K V : Type} [DecidableEq K] (c : TTLCache K V) (op : CacheOp K V)
    (h : c.size ≤ c.max_items) : (applyOp c op).size ≤ c.max_items := by
  cases op with
  | get now k => exact le_trans (get_size_le c now k) h
  | set now k v => exact set_size_le c now k v h
  | clear => simp [applyOp, TTLCache.clear, TTLCache.size]

lemma applyOps_size_le {K V : Type} [DecidableEq K] (c : TTLCache K V)
    (ops : List (CacheOp K V)) (h : c.size ≤ c.max_items) :
    (applyOps c ops).size ≤ c.max_items := by
  induction ops generalizing c with
  | nil => simpa [applyOps] using h
  | cons op rest ih =>
    have h1 : (applyOp c op).size ≤ (applyOp c op).max_items := by
      rw [applyOp_max_eq]
      exact applyOp_size_le c op h
    have h2 := ih (applyOp c op) h1
    rw [applyOp_max_eq] at h2
    simpa [applyOps, List.foldl_cons] using h2

/-- C9: starting from a fresh cache with capacity `n`, the size stays at
most `n` after every sequence of operations (in particular after every
`set`); a `get` never increases the size, `clear` empties it, and `set`
preserves `size ≤ maxItems` (the overflowing insertion evicts before
returning). -/
theorem cache_size_bound {K V : Type} [DecidableEq K] (n : ℕ) (t : ℤ)
    (ops : List (CacheOp K V)) (c : TTLCache K V) (now : ℤ) (k : K) (v : V) :
    (applyOps (TTLCache.empty K V n t) ops).size ≤ n
    ∧ ((c.get now k).2).size ≤ c.size
    ∧ (c.clear).size = 0
    ∧ (c.size ≤ c.max_items → (c.set now k v).size ≤ c.max_items) := by
  refine ⟨?_, get_size_le c now k, rfl, set_size_le c now k v⟩
  have h0 : (TTLCache.empty K V n t).size ≤ (TTLCache.empty K V n t).max_items := by
    simp [TTLCache.empty, TTLCache.size]
  simpa [TTLCache.empty] using applyOps_size_le (TTLCache.empty K V n t) ops h0

theorem cache_ttl_expiry_witness :
    0 < (TTLCache.empty ℕ ℕ 2 10).max_items
    ∧ (((TTLCache.empty ℕ ℕ 2 10).set 0 1 5).get 11 1).1 = none
    ∧ (((TTLCache.empty ℕ ℕ 2 10).set 0 1 5).get 10 1).1 = some 5 := by
  refine ⟨by decide, ?_, ?_⟩
  · exact ((cache_ttl_expiry (TTLCache.empty ℕ ℕ 2 10) 0 11 1 5 (by decide)).2.1
      (by decide)).1
  · exact (cache_ttl_expiry (TTLCache.empty ℕ ℕ 2 10) 0 10 1 5 (by decide)).2.2
      (by decide)

theorem cache_lru_touch_witness :
    ((TTLCache.mk 2 10 [(1, 0, 5), (2, 0, 6)] : TTLCache ℕ ℕ).set 1 3 7).data
        = [(2, 0, 6), (3, 1, 7)]
    ∧ (∃ ts, (((TTLCache.mk 2 10 [(1, 0, 5), (2, 0, 6)] : TTLCache ℕ ℕ).get 1 2).2).data
        = (TTLCache.mk 2 10 [(1, 0, 5), (2, 0, 6)] : TTLCache ℕ ℕ).data.filter
            (fun e => e.1 ≠ 2) ++ [(2, ts, 6)])
    ∧ (((TTLCache.mk 2 10 [(1, 0, 5), (2, 0, 6)] : TTLCache ℕ ℕ).set 1 3 7).data).getLast?
        = some (3, 1, 7) := by
  refine ⟨?_, ?_, ?_⟩
  · exact (cache_lru_touch (TTLCache.mk 2 10 [(1, 0, 5), (2, 0, 6)]) 1 3 7).1
      (by decide) (by decide) (by decide)
  · exact (cache_lru_touch (TTLCache.mk 2 10 [(1, 0, 5), (2, 0, 6)]) 1 2 6).2.1 6
      (by decide)
  · exact (cache_lru_touch (TTLCache.mk 2 10 [(1, 0, 5), (2, 0, 6)]) 1 3 7).2.2
      (by decide)

theorem cache_size_bound_witness :
    (applyOps (TTLCache.empty ℕ ℕ 2 10)
      [CacheOp.set 0 1 5, CacheOp.set 1 2 6, CacheOp.set 2 3 7]).size ≤ 2
    ∧ ((TTLCache.mk 2 10 [(1, 0, 5)] : TTLCache ℕ ℕ).set 3 2 6).size ≤ 2 := by
  have h := cache_size_bound 2 10
    [CacheOp.set 0 1 5, CacheOp.set 1 2 6, CacheOp.set 2 3 7]
    (TTLCache.mk 2 10 [(1, 0, 5)] : TTLCache ℕ ℕ) 3 2 6
  exact ⟨h.1, h.2.2.2 (by decide)⟩

/-! ### Helper lemmas about the expansion engine's branches -/

lemma get_none_of_get_none {K V : Type} [DecidableEq K] (c : TTLCache K V) (now : ℤ) (k : K)
    (h : (c.get now k).1 = none) : (((c.get now k).2).get now k).1 = none := by
  rcases hfind : c.data.find? (fun e => e.1 = k) with _ | ⟨⟨k', ts, v'⟩⟩
  · simp only [TTLCache.get, hfind]
  · by_cases hexp : now - ts > c.ttl
    · have hinner : (c.data.filter (fun e => e.1 ≠ k)).find? (fun e => e.1 = k) = none :=
        List.find?_eq_none.2 (fun x hx => by simpa using mem_filter_ne c.data k x hx)
      simp only [TTLCache.get, hfind, hexp, if_true, hinner]
    · simp only [TTLCache.get, hfind, hexp, if_false] at h
      exact Option.noConfusion h

lemma expandRec_seen (env : String → FetchOutcome) (now : ℤ) (fuel : ℕ)
    (setname : String) (st : ExpState) (h : setname ∈ st.seen) :
    expandRec env now fuel setname st = (.ok ∅, st) := by
  cases fuel with
  | zero => rfl
  | succ f => simp only [expandRec, h, if_true]

lemma expandRec_succ_hit (env : String → FetchOutcome) (now : ℤ) (fuel : ℕ)
    (setname : String) (st : ExpState) (s : Finset ℕ)
    (hseen : setname ∉ st.seen)
    (hhit : (st.cache.get now ("as_set:" ++ setname)).1 = some s)
    (hne : s.Nonempty) :
    expandRec env now (fuel + 1) setname st =
      (.ok s, ⟨insert setname st.seen,
        (st.cache.get now ("as_set:" ++ setname)).2, st.trace⟩) := by
  simp only [expandRec, hseen, if_false, hhit, Option.getD_some, hne, if_true]

lemma expandRec_succ_err (env : String → FetchOutcome) (now : ℤ) (fuel : ℕ)
    (setname : String) (st : ExpState)
    (hseen : setname ∉ st.seen)
    (hmiss : ((st.cache.get now ("as_set:" ++ setname)).1.getD ∅) = ∅)
    (henv : env setname = .err) :
    expandRec env now (fuel + 1) setname st =
      (.error (), ⟨insert setname st.seen,
        (st.cache.get now ("as_set:" ++ setname)).2, st.trace ++ [setname]⟩) := by
  simp only [expandRec, hseen, if_false, hmiss, Finset.not_nonempty_empty, henv]

lemma expandRec_succ_notFound (env : String → FetchOutcome) (now : ℤ) (fuel : ℕ)
    (setname : String) (st : ExpState)
    (hseen : setname ∉ st.seen)
    (hmiss : ((st.cache.get now ("as_set:" ++ setname)).1.getD ∅) = ∅)
    (henv : env setname = .notFound) :
    expandRec env now (fuel + 1) setname st =
      (.ok ∅, ⟨insert setname st.seen,
        (st.cache.get now ("as_set:" ++ setname)).2, st.trace ++ [setname]⟩) := by
  simp only [expandRec, hseen, if_false, hmiss, Finset.not_nonempty_empty, henv]

lemma expandRec_succ_found (env : String → FetchOutcome) (now : ℤ) (fuel : ℕ)
    (setname : String) (st : ExpState) (ms : List String)
    (hseen : setname ∉ st.seen)
    (hmiss : ((st.cache.get now ("as_set:" ++ setname)).1.getD ∅) = ∅)
    (henv : env setname = .found ms) :
    expandRec env now (fuel + 1) setname st =
      ((.ok (processMembers env now fuel ms
          ⟨insert setname st.seen, (st.cache.get now ("as_set:" ++ setname)).2,
            st.trace ++ [setname]⟩ ∅).1),
        { (processMembers env now fuel ms
            ⟨insert setname st.seen, (st.cache.get now ("as_set:" ++ setname)).2,
              st.trace ++ [setname]⟩ ∅).2 with
          cache := ((processMembers env now fuel ms
            ⟨insert setname st.seen, (st.cache.get now ("as_set:" ++ setname)).2,
              st.trace ++ [setname]⟩ ∅).2).cache.set now ("as_set:" ++ setname)
            (processMembers env now fuel ms
              ⟨insert setname st.seen, (st.cache.get now ("as_set:" ++ setname)).2,
                st.trace ++ [setname]⟩ ∅).1 }) := by
  simp only [expandRec, hseen, if_false, hmiss, Finset.not_nonempty_empty, henv,
    processMembers]

lemma processMembers_nil (env : String → FetchOutcome) (now : ℤ) (fuel : ℕ)
    (st : ExpState) (acc : Finset ℕ) :
    processMembers env now fuel [] st acc = (acc, st) := rfl

lemma processMembers_leaf (env : String → FetchOutcome) (now : ℤ) (fuel : ℕ)
    (m : String) (rest : List String) (st : ExpState) (acc : Finset ℕ)
    (h : pyStartsWith (pyUpper m) "AS" ∧ pyIsDigit (pyDrop m 2)) :
    processMembers env now fuel (m :: rest) st acc =
      processMembers env now fuel rest st (insert (pyParseNat (pyDrop m 2)) acc) := by
  simp only [processMembers, List.foldl_cons, memberStep, h, and_self, if_true]

lemma processMembers_nested_ok (env : String → FetchOutcome) (now : ℤ) (fuel : ℕ)
    (m : String) (rest : List String) (st : ExpState) (acc s : Finset ℕ)
    (hleaf : ¬(pyStartsWith (pyUpper m) "AS" ∧ pyIsDigit (pyDrop m 2)))
    (hnest : pyStartsWith (pyUpper m) "AS-")
    (h : (expandRec env now fuel m st).1 = .ok s) :
    processMembers env now fuel (m :: rest) st acc =
      processMembers env now fuel rest (expandRec env now fuel m st).2 (acc ∪ s) := by
  simp only [processMembers, List.foldl_cons, memberStep, hleaf, if_false, hnest, if_true, h]

lemma processMembers_nested_err (env : String → FetchOutcome) (now : ℤ) (fuel : ℕ)
    (m : String) (rest : List String) (st : ExpState) (acc : Finset ℕ)
    (hleaf : ¬(pyStartsWith (pyUpper m) "AS" ∧ pyIsDigit (pyDrop m 2)))
    (hnest : pyStartsWith (pyUpper m) "AS-")
    (h : (expandRec env now fuel m st).1 = .error ()) :
    processMembers env now fuel (m :: rest) st acc =
      processMembers env now fuel rest (expandRec env now fuel m st).2 acc := by
  simp only [processMembers, List.foldl_cons, memberStep, hleaf, if_false, hnest, if_true, h]

lemma processMembers_skip (env : String → FetchOutcome) (now : ℤ) (fuel : ℕ)
    (m : String) (rest : List String) (st : ExpState) (acc : Finset ℕ)
    (hleaf : ¬(pyStartsWith (pyUpper m) "AS" ∧ pyIsDigit (pyDrop m 2)))
    (hnest : ¬pyStartsWith (pyUpper m) "AS-" = true) :
    processMembers env now fuel (m :: rest) st acc =
      processMembers env now fuel rest st acc := by
  simp only [processMembers, List.foldl_cons, memberStep, hleaf, if_false, hnest]
  simp

/-- With no remaining depth budget for the nested calls, the member loop
collects exactly the direct leaf-ASN tokens and leaves the state
untouched. -/
lemma processMembers_fuel_zero (env : String → FetchOutcome) (now : ℤ)
    (ms : List String) (st : ExpState) (acc : Finset ℕ) :
    processMembers env now 0 ms st acc =
      (ms.foldl
        (fun a m =>
          if pyStartsWith (pyUpper m) "AS" ∧ pyIsDigit (pyDrop m 2) then
            insert (pyParseNat (pyDrop m 2)) a
          else a) acc, st) := by
  induction ms generalizing acc with
  | nil => rfl
  | cons m rest ih =>
    by_cases hleaf : pyStartsWith (pyUpper m) "AS" ∧ pyIsDigit (pyDrop m 2)
    · rw [processMembers_leaf env now 0 m rest st acc hleaf, ih]
      simp only [List.foldl_cons, hleaf, and_self, if_true]
    · by_cases hnest : pyStartsWith (pyUpper m) "AS-"
      · rw [processMembers_nested_ok env now 0 m rest st acc ∅ hleaf hnest rfl]
        simp only [expandRec]
        rw [ih]
        simp only [List.foldl_cons, hleaf, if_false, Finset.union_empty]
      · rw [processMembers_skip env now 0 m rest st acc hleaf hnest, ih]
        simp only [List.foldl_cons, hleaf, if_false]

/-- C1: the recursive expansion is cycle-safe. A node name already in the
per-call visited set contributes nothing and leaves the state untouched
(each name is inserted into `seen` before its members are processed, so a
revisit is cut off), and on the spec's cyclic graph
`AS-EXAMPLE -> AS-NESTED -> AS-EXAMPLE` the expansion from `AS-EXAMPLE`
terminates with the union of the leaf ASNs reached before the cycle
closes, `{100, 200}`. -/
theorem expansion_cycle_termination :
    (∀ (env : String → FetchOutcome) (now : ℤ) (fuel : ℕ) (setname : String)
      (st : ExpState), setname ∈ st.seen →
        expandRec env now fuel setname st = (.ok ∅, st))
    ∧ (expandAsSetRequest cycleEnv 0 ripeCache "AS-EXAMPLE" 10).1
        = .success "AS-EXAMPLE" [100, 200] 2 (some "expanded") := by
  constructor
  · intro env now fuel setname st h
    exact expandRec_seen env now fuel setname st h
  · decide

theorem expansion_cycle_termination_witness :
    "AS-A" ∈ (⟨{"AS-A"}, ripeCache, []⟩ : ExpState).seen
    ∧ expandRec outageEnv 0 5 "AS-A" ⟨{"AS-A"}, ripeCache, []⟩
        = (.ok ∅, ⟨{"AS-A"}, ripeCache, []⟩) :=
  ⟨by decide,
    expansion_cycle_termination.1 outageEnv 0 5 "AS-A" ⟨{"AS-A"}, ripeCache, []⟩
      (by decide)⟩

/-- C2: depth is measured in edges from the root (depth ≥ maxDepth stops a
node before it is fetched and contributes nothing), and a request with
`maxDepth = 1` fetches only the root — the trace is `[setname]` — and
returns exactly the root's direct leaf-ASN members (`specDirectLeaves`);
on the chain `AS-A -> AS-B -> AS-C -> leaf(ASN 1)`, `maxDepth = 1` yields
an empty ASN list and `maxDepth = 3` yields `[1]`. -/
theorem depth_limit_direct_members :
    (∀ (env : String → FetchOutcome) (now : ℤ) (setname : String) (st : ExpState),
      expandRec env now 0 setname st = (.ok ∅, st))
    ∧ (∀ (env : String → FetchOutcome) (now : ℤ) (cache : TTLCache String (Finset ℕ))
        (setname : String) (ms : List String),
        env setname = .found ms →
        (cache.get now ("as_set:" ++ setname)).1 = none →
        (expandAsSetRequest env now cache setname 1).2.trace = [setname]
        ∧ (expandAsSetRequest env now cache setname 1).1 =
            (if (specDirectLeaves ms).card = 0 then
              Response.success setname [] 0 (some "not-found")
            else
              Response.success setname (sortAsns (specDirectLeaves ms))
                (specDirectLeaves ms).card (some "expanded")))
    ∧ (expandAsSetRequest chainEnv 0 ripeCache "AS-A" 1).1
        = .success "AS-A" [] 0 (some "not-found")
    ∧ (expandAsSetRequest chainEnv 0 ripeCache "AS-A" 3).1
        = .success "AS-A" [1] 1 (some "expanded") := by
  refine ⟨fun env now setname st => rfl, ?_, by decide, by decide⟩
  intro env now cache setname ms henv hmiss
  have h2 : ((cache.get now ("as_set:" ++ setname)).2.get now ("as_set:" ++ setname)).1
      = none := get_none_of_get_none cache now ("as_set:" ++ setname) hmiss
  have hmiss2 : (((⟨∅, (cache.get now ("as_set:" ++ setname)).2, []⟩ : ExpState).cache.get
      now ("as_set:" ++ setname)).1.getD ∅) = ∅ := by
    simp only [h2, Option.getD_none]
  have hrec := expandRec_succ_found env now 0 setname
    ⟨∅, (cache.get now ("as_set:" ++ setname)).2, []⟩ ms (by simp) hmiss2 henv
  rw [processMembers_fuel_zero] at hrec
  have hsd : (ms.foldl
      (fun a m =>
        if pyStartsWith (pyUpper m) "AS" ∧ pyIsDigit (pyDrop m 2) then
          insert (pyParseNat (pyDrop m 2)) a
        else a) ∅) = specDirectLeaves ms := rfl
  rw [hsd] at hrec
  constructor
  · simp only [expandAsSetRequest, hmiss, hrec]
    by_cases hc : (specDirectLeaves ms).card = 0 <;> simp [hc]
  · simp only [expandAsSetRequest, hmiss, hrec]
    by_cases hc : (specDirectLeaves ms).card = 0 <;> simp [hc]

theorem depth_limit_direct_members_witness :
    cycleEnv "AS-EXAMPLE" = .found ["AS100", "AS-NESTED"]
    ∧ (ripeCache.get 0 ("as_set:" ++ "AS-EXAMPLE")).1 = none
    ∧ (expandAsSetRequest cycleEnv 0 ripeCache "AS-EXAMPLE" 1).2.trace
        = ["AS-EXAMPLE"] := by
  refine ⟨by decide, by decide, ?_⟩
  exact (depth_limit_direct_members.2.1 cycleEnv 0 ripeCache "AS-EXAMPLE"
    ["AS100", "AS-NESTED"] (by decide) (by decide)).1

/-- C3: a nested branch whose expansion raises is caught at the call site
in the parent's member loop — the loop continues with the remaining
members from the failed branch's state, contributing nothing for the
failed branch — and on the spec's scenario (parent `AS-P` with nested
`AS-X` failing and `AS-Y` yielding ASN 7) the parent's expansion still
succeeds with `[7]`. -/
theorem nested_failure_tolerance :
    (∀ (env : String → FetchOutcome) (now : ℤ) (fuel : ℕ) (m : String)
      (rest : List String) (st : ExpState) (acc : Finset ℕ),
      ¬(pyStartsWith (pyUpper m) "AS" ∧ pyIsDigit (pyDrop m 2)) →
      pyStartsWith (pyUpper m) "AS-" →
      (expandRec env now fuel m st).1 = .error () →
      processMembers env now fuel (m :: rest) st acc =
        processMembers env now fuel rest (expandRec env now fuel m st).2 acc)
    ∧ (expandAsSetRequest splitEnv 0 ripeCache "AS-P" 10).1
        = .success "AS-P" [7] 1 (some "expanded") := by
  refine ⟨?_, by decide⟩
  intro env now fuel m rest st acc hleaf hnest herr
  exact processMembers_nested_err env now fuel m rest st acc hleaf hnest herr

theorem nested_failure_tolerance_witness :
    (¬(pyStartsWith (pyUpper "AS-X") "AS" ∧ pyIsDigit (pyDrop "AS-X" 2))
      ∧ pyStartsWith (pyUpper "AS-X") "AS-"
      ∧ (expandRec splitEnv 0 1 "AS-X" ⟨{"AS-P"}, ripeCache, []⟩).1 = .error ())
    ∧ processMembers splitEnv 0 1 ["AS-X", "AS-Y"] ⟨{"AS-P"}, ripeCache, []⟩ ∅ =
        processMembers splitEnv 0 1 ["AS-Y"]
          (expandRec splitEnv 0 1 "AS-X" ⟨{"AS-P"}, ripeCache, []⟩).2 ∅ := by
  refine ⟨⟨by decide, by decide, by decide⟩, ?_⟩
  exact nested_failure_tolerance.1 splitEnv 0 1 "AS-X" ["AS-Y"]
    ⟨{"AS-P"}, ripeCache, []⟩ ∅ (by decide) (by decide) (by decide)

/-- C4 counterexample: with every upstream fetch raising a transport error
(total outage), the top-level call returns the `ok:false` error envelope —
not an `ok:true` envelope with status `not-found` as the claim states. -/
theorem total_outage_counterexample :
    (expandAsSetRequest outageEnv 0 ripeCache "AS-ROOT" 10).1
      = .failure "expansion_error" := by decide

/-- C4 amended: when the root fetch raises (transport error), the raised
exception propagates out of the recursion and the top-level call returns
the `ok:false` `expansion_error` envelope; only when the root fetch
reports "not found" (404 / empty object list) does the call return the
`ok:true` envelope with status `not-found` and an empty ASN list. -/
theorem total_outage_envelopes (env : String → FetchOutcome) (now : ℤ)
    (cache : TTLCache String (Finset ℕ)) (setname : String) (maxd : ℕ)
    (hmiss : (cache.get now ("as_set:" ++ setname)).1 = none) :
    (1 ≤ maxd → env setname = .err →
      (expandAsSetRequest env now cache setname maxd).1 = .failure "expansion_error")
    ∧ (env setname = .notFound →
      (expandAsSetRequest env now cache setname maxd).1
        = .success setname [] 0 (some "not-found")) := by
  have h2 := get_none_of_get_none cache now ("as_set:" ++ setname) hmiss
  constructor
  · intro hmaxd henv
    obtain ⟨f, rfl⟩ : ∃ f, maxd = f + 1 := ⟨maxd - 1, by omega⟩
    have hrec := expandRec_succ_err env now f setname
      ⟨∅, (cache.get now ("as_set:" ++ setname)).2, []⟩ (by simp) (by simp [h2]) henv
    simp only [expandAsSetRequest, hmiss, hrec]
  · intro henv
    cases maxd with
    | zero =>
      simp only [expandAsSetRequest, hmiss, expandRec]
      simp
    | succ f =>
      have hrec := expandRec_succ_notFound env now f setname
        ⟨∅, (cache.get now ("as_set:" ++ setname)).2, []⟩ (by simp) (by simp [h2]) henv
      simp only [expandAsSetRequest, hmiss, hrec]
      simp

theorem total_outage_envelopes_witness :
    ((ripeCache.get 0 ("as_set:" ++ "AS-ROOT")).1 = none
      ∧ outageEnv "AS-ROOT" = .err
      ∧ (expandAsSetRequest outageEnv 0 ripeCache "AS-ROOT" 10).1
          = .failure "expansion_error")
    ∧ (chainEnv "AS-NOPE" = .notFound
      ∧ (expandAsSetRequest chainEnv 0 ripeCache "AS-NOPE" 10).1
          = .success "AS-NOPE" [] 0 (some "not-found")) := by
  refine ⟨⟨by decide, by decide, ?_⟩, ⟨by decide, ?_⟩⟩
  · exact (total_outage_envelopes outageEnv 0 ripeCache "AS-ROOT" 10 (by decide)).1
      (by decide) (by decide)
  · exact (total_outage_envelopes chainEnv 0 ripeCache "AS-NOPE" 10 (by decide)).2
      (by decide)

/-- C5 counterexample: the root's member token `FOO` is neither contributed
as a leaf ASN nor treated as a nested reference — it is silently dropped.
`FOO` would expand to ASN 7 if it were ever fetched, yet the result is
empty and the trace shows only the root was fetched. -/
theorem member_token_counterexample :
    (expandAsSetRequest strayEnv 0 ripeCache "AS-A" 10).1
        = .success "AS-A" [] 0 (some "not-found")
    ∧ (expandAsSetRequest strayEnv 0 ripeCache "AS-A" 10).2.trace = ["AS-A"] := by
  exact ⟨by decide, by decide⟩

/-- C5 amended: a member token whose uppercase form is `AS` followed by
decimal digits only is contributed as that leaf ASN; otherwise a token
whose uppercase form starts with `AS-` is recursively expanded (its result
merged on success, nothing on failure); every other token is silently
ignored — the loop moves on with state and accumulator unchanged. -/
theorem member_token_classification (env : String → FetchOutcome) (now : ℤ)
    (fuel : ℕ) (m : String) (rest : List String) (st : ExpState) (acc : Finset ℕ) :
    ((pyStartsWith (pyUpper m) "AS" ∧ pyIsDigit (pyDrop m 2)) →
      processMembers env now fuel (m :: rest) st acc =
        processMembers env now fuel rest st (insert (pyParseNat (pyDrop m 2)) acc))
    ∧ (¬(pyStartsWith (pyUpper m) "AS" ∧ pyIsDigit (pyDrop m 2)) →
        pyStartsWith (pyUpper m) "AS-" →
        ∀ s, (expandRec env now fuel m st).1 = .ok s →
          processMembers env now fuel (m :: rest) st acc =
            processMembers env now fuel rest (expandRec env now fuel m st).2 (acc ∪ s))
    ∧ (¬(pyStartsWith (pyUpper m) "AS" ∧ pyIsDigit (pyDrop m 2)) →
        ¬pyStartsWith (pyUpper m) "AS-" = true →
        processMembers env now fuel (m :: rest) st acc =
          processMembers env now fuel rest st acc) := by
  refine ⟨?_, ?_, ?_⟩
  · intro h
    exact processMembers_leaf env now fuel m rest st acc h
  · intro hleaf hnest s h
    exact processMembers_nested_ok env now fuel m rest st acc s hleaf hnest h
  · intro hleaf hnest
    exact processMembers_skip env now fuel m rest st acc hleaf hnest

theorem member_token_classification_witness :
    ((pyStartsWith (pyUpper "as100") "AS" ∧ pyIsDigit (pyDrop "as100" 2))
      ∧ processMembers strayEnv 0 1 ["as100"] ⟨∅, ripeCache, []⟩ ∅ =
          processMembers strayEnv 0 1 [] ⟨∅, ripeCache, []⟩
            (insert (pyParseNat (pyDrop "as100" 2)) ∅))
    ∧ (¬(pyStartsWith (pyUpper "FOO") "AS" ∧ pyIsDigit (pyDrop "FOO" 2))
      ∧ ¬pyStartsWith (pyUpper "FOO") "AS-" = true
      ∧ processMembers strayEnv 0 1 ["FOO"] ⟨∅, ripeCache, []⟩ ∅ =
          processMembers strayEnv 0 1 [] ⟨∅, ripeCache, []⟩ ∅) := by
  refine ⟨⟨by decide, ?_⟩, ⟨by decide, by decide, ?_⟩⟩
  · exact (member_token_classification strayEnv 0 1 "as100" [] ⟨∅, ripeCache, []⟩ ∅).1
      (by decide)
  · exact (member_token_classification strayEnv 0 1 "FOO" [] ⟨∅, ripeCache, []⟩ ∅).2.2
      (by decide) (by decide)

lemma sortAsns_sorted (s : Finset ℕ) : List.Sorted (· ≤ ·) (sortAsns s) := by
  obtain ⟨l, hl⟩ := Quot.exists_rep s.val
  unfold sortAsns
  rw [← hl]
  exact List.sorted_insertionSort _ l

lemma sortAsns_coe (s : Finset ℕ) : (↑(sortAsns s) : Multiset ℕ) = s.val := by
  obtain ⟨l, hl⟩ := Quot.exists_rep s.val
  unfold sortAsns
  rw [← hl]
  exact Quot.sound (List.perm_insertionSort _ l)

lemma sortAsns_length (s : Finset ℕ) : (sortAsns s).length = s.card := by
  have h := congrArg Multiset.card (sortAsns_coe s)
  rw [Multiset.coe_card] at h
  exact h

lemma sortAsns_nodup (s : Finset ℕ) : (sortAsns s).Nodup := by
  have h := s.nodup
  rw [← sortAsns_coe s] at h
  exact Multiset.coe_nodup.1 h

/-- C6 counterexample: a successful response served from the cache carries
`as_set`, `asns` and `count` but no `status` field at all, contradicting
the claim that every successful response (including cache-served ones)
contains a status of `"expanded"` or `"not-found"`. -/
theorem response_status_counterexample :
    (expandAsSetRequest outageEnv 0 servedCache "AS-X" 10).1
      = .success "AS-X" [5] 1 none := by decide

/-- C6 amended: every successful response carries the requested set name,
an ascending duplicate-free ASN list, and a count equal to the list's
length; the status field is `"expanded"` or `"not-found"` on the
freshly-computed path and absent exactly on the cache-served path — in
particular, every request whose cache lookup hits (any non-`None` cached
value, for any environment and depth) is answered as a success with the
cached set's sorted list and count and with no status field at all. -/
theorem response_shape (env : String → FetchOutcome) (now : ℤ)
    (cache : TTLCache String (Finset ℕ)) (setname : String) (maxd : ℕ) :
    (∀ nm a cnt stt,
      (expandAsSetRequest env now cache setname maxd).1 = .success nm a cnt stt →
      nm = setname ∧ List.Sorted (· ≤ ·) a ∧ a.Nodup ∧ cnt = a.length
      ∧ (stt = some "expanded" ∨ stt = some "not-found"
          ∨ (stt = none ∧ (cache.get now ("as_set:" ++ setname)).1 ≠ none)))
    ∧ (∀ s, (cache.get now ("as_set:" ++ setname)).1 = some s →
        (expandAsSetRequest env now cache setname maxd).1
          = .success setname (sortAsns s) s.card none) := by
  refine ⟨?_, ?_⟩
  case refine_2 =>
    intro s hhit
    simp only [expandAsSetRequest, hhit]
  intro nm a cnt stt h
  rcases hgot : (cache.get now ("as_set:" ++ setname)).1 with _ | s
  · simp only [expandAsSetRequest, hgot] at h
    rcases hr : (expandRec env now maxd setname
        ⟨∅, (cache.get now ("as_set:" ++ setname)).2, []⟩).1 with u | asns
    · simp only [hr] at h
      exact Response.noConfusion h
    · simp only [hr] at h
      by_cases hc : asns.card = 0 ∧ (expandRec env now maxd setname
          ⟨∅, (cache.get now ("as_set:" ++ setname)).2, []⟩).2.seen.card ≤ 1
      · rw [if_pos hc] at h
        simp only [Response.success.injEq] at h
        obtain ⟨h1, h2, h3, h4⟩ := h
        subst h1
        subst h2
        subst h3
        subst h4
        exact ⟨rfl, List.sorted_nil, List.nodup_nil, rfl, Or.inr (Or.inl rfl)⟩
      · rw [if_neg hc] at h
        simp only [Response.success.injEq] at h
        obtain ⟨h1, h2, h3, h4⟩ := h
        subst h1
        subst h2
        subst h3
        subst h4
        exact ⟨rfl, sortAsns_sorted asns, sortAsns_nodup asns,
          (sortAsns_length asns).symm, Or.inl rfl⟩
  · simp only [expandAsSetRequest, hgot] at h
    simp only [Response.success.injEq] at h
    obtain ⟨h1, h2, h3, h4⟩ := h
    subst h1
    subst h2
    subst h3
    subst h4
    refine ⟨rfl, sortAsns_sorted s, sortAsns_nodup s, (sortAsns_length s).symm,
      Or.inr (Or.inr ⟨rfl, ?_⟩)⟩
    simp [hgot]

theorem response_shape_witness :
    (expandAsSetRequest cycleEnv 0 ripeCache "AS-EXAMPLE" 10).1
        = .success "AS-EXAMPLE" [100, 200] 2 (some "expanded")
    ∧ List.Sorted (· ≤ ·) [100, 200] ∧ [100, 200].Nodup ∧ 2 = [100, 200].length
    ∧ ((servedCache.get 0 ("as_set:" ++ "AS-X")).1 = some {5}
      ∧ (expandAsSetRequest chainEnv 0 servedCache "AS-X" 10).1
          = .success "AS-X" (sortAsns {5}) (Finset.card {5}) none) := by
  have h := (response_shape cycleEnv 0 ripeCache "AS-EXAMPLE" 10).1 "AS-EXAMPLE"
    [100, 200] 2 (some "expanded") (by decide)
  refine ⟨by decide, h.2.1, h.2.2.1, h.2.2.2.1, by decide, ?_⟩
  exact (response_shape chainEnv 0 servedCache "AS-X" 10).2 {5} (by decide)

/-- C10: inside the recursive step a cached empty ASN set is falsy and is
treated as a miss — the node is fetched upstream again (observable here:
with the fetch raising, the step raises instead of serving the cached
empty set) — while the top-level handler's `is not None` check treats the
same cached empty set as a hit and answers from it without any fetch
(empty trace), with no `status` field. -/
theorem empty_cache_value_asymmetry :
    (∀ (env : String → FetchOutcome) (now : ℤ) (fuel : ℕ) (setname : String)
      (st : ExpState),
      setname ∉ st.seen →
      (st.cache.get now ("as_set:" ++ setname)).1 = some ∅ →
      env setname = .err →
      (expandRec env now (fuel + 1) setname st).1 = .error ())
    ∧ (∀ (env : String → FetchOutcome) (now : ℤ) (cache : TTLCache String (Finset ℕ))
        (setname : String) (maxd : ℕ),
        (cache.get now ("as_set:" ++ setname)).1 = some ∅ →
        (expandAsSetRequest env now cache setname maxd).1 = .success setname [] 0 none
        ∧ (expandAsSetRequest env now cache setname maxd).2.trace = []) := by
  constructor
  · intro env now fuel setname st hseen hhit henv
    have hmiss : ((st.cache.get now ("as_set:" ++ setname)).1.getD ∅) = ∅ := by
      rw [hhit]
      rfl
    rw [expandRec_succ_err env now fuel setname st hseen hmiss henv]
  · intro env now cache setname maxd hhit
    constructor
    · simp only [expandAsSetRequest, hhit]
      rfl
    · simp only [expandAsSetRequest, hhit]

theorem empty_cache_value_asymmetry_witness :
    ((emptyCachedCache.get 0 ("as_set:" ++ "AS-Z")).1 = some ∅
      ∧ "AS-Z" ∉ (⟨∅, emptyCachedCache, []⟩ : ExpState).seen
      ∧ (expandRec outageEnv 0 1 "AS-Z" ⟨∅, emptyCachedCache, []⟩).1 = .error ())
    ∧ (expandAsSetRequest outageEnv 0 emptyCachedCache "AS-Z" 10).1
        = .success "AS-Z" [] 0 none := by
  refine ⟨⟨by decide, by decide, ?_⟩, ?_⟩
  · exact empty_cache_value_asymmetry.1 outageEnv 0 0 "AS-Z"
      ⟨∅, emptyCachedCache, []⟩ (by decide) (by decide) (by decide)
  · exact (empty_cache_value_asymmetry.2 outageEnv 0 emptyCachedCache "AS-Z" 10
      (by decide)).1
